import Mathlib

/-!
# Verification of the headcount-tracker core (`app.js`)

Shallow embedding of the authenticated attendance ledger: the login/lockout
session state machine, the designation index, the per-date attendance store
and its audit ring.  The browser's `localStorage` is modelled as an explicit
`Store` value threaded through every operation; `Date.now()` is an explicit
`now : Nat` argument (all reads of the clock inside one operation return the
same value).  JavaScript objects used as string-keyed maps are modelled as
association lists with JS assignment semantics (overwrite in place, append
new keys at the end).
-/

set_option maxRecDepth 4000

/-- A JavaScript value as it can appear in the `present` field or in an
audit entry's old/new slots: a number, a string, a boolean or `null`. -/
inductive JVal where
  | num (n : Int)
  | str (s : String)
  | jbool (b : Bool)
  | null
deriving DecidableEq, Repr

/-- `session.failedLogin` from `Storage.getSession`. -/
structure FailedLogin where
  count : Nat
  cooldownUntil : Option Nat
deriving DecidableEq, Repr

/-- The singleton session document (`hc_session`). -/
structure Session where
  currentUser : Option String
  expiresAt : Option Nat
  failedLogin : FailedLogin
deriving DecidableEq, Repr

/-- One element of the user list document (`hc_users`). -/
structure User where
  username : String
  role : String
  salt : String
  passwordHash : String
  assignedAreas : List String
  createdAt : Nat
  disabled : Bool
deriving DecidableEq, Repr

/-- One audit-ring element; `fromVal`/`toVal` model the JS `from`/`to`
fields (`from` is a Lean keyword). -/
structure AuditEntry where
  ts : Nat
  user : String
  area : String
  designationKey : String
  field : String
  fromVal : JVal
  toVal : JVal
deriving DecidableEq, Repr

/-- One attendance row inside an area of a date document. -/
structure Row where
  designationKey : String
  designationLabel : String
  present : JVal
  confirmed : Bool
  updatedAt : Option Nat
  updatedBy : Option String
deriving DecidableEq, Repr

/-- `data.areas[areaName]` — a record holding the row list. -/
structure AreaData where
  rows : List Row
deriving DecidableEq, Repr

/-- One date's document inside the attendance map. -/
structure DateData where
  areas : List (String × AreaData)
  audit : List AuditEntry
  updatedAt : Option Nat
  updatedBy : Option String
deriving DecidableEq, Repr

/-- The designation-history document (`hc_designation_history`). -/
structure DesignHist where
  global : List String
  byArea : List (String × List String)
deriving DecidableEq, Repr

/-- The whole persistent store (the `localStorage` documents the core
logic touches). -/
structure Store where
  session : Session
  users : List User
  attendance : List (String × DateData)
  designationHistory : DesignHist
deriving DecidableEq, Repr

/-- Read a key of a JS object modelled as an association list. -/
def objGet {α : Type} (m : List (String × α)) (k : String) : Option α :=
  (m.find? (fun p => p.1 == k)).map (·.2)

/-- JS assignment `m[k] = v`: overwrite an existing key in place, append a
new key at the end. -/
def objSet {α : Type} (m : List (String × α)) (k : String) (v : α) : List (String × α) :=
  match m with
  | [] => [(k, v)]
  | p :: ps => if p.1 == k then (k, v) :: ps else p :: objSet ps k v

-- ============================================
-- CONSTANTS (from `CONFIG` in app.js)
-- ============================================

def SESSION_DURATION : Nat := 8 * 60 * 60 * 1000
def LOCKOUT_DURATION : Nat := 5 * 60 * 1000
def MAX_LOGIN_ATTEMPTS : Nat := 5
def MAX_AUDIT_ENTRIES : Nat := 10
def MAX_GLOBAL_DESIGNATION_HISTORY : Nat := 100
def MAX_AREA_DESIGNATION_HISTORY : Nat := 50

-- ============================================
-- Utils.normalizeDesignation
-- ============================================

/-- The JS `\s` / `trim` whitespace class, by code point (space, tab, LF,
VT, FF, CR, NBSP; the remaining Unicode space code points behave the same
for every lemma below). -/
def isWs (c : Char) : Bool :=
  decide (c.toNat = 32 ∨ c.toNat = 9 ∨ c.toNat = 10 ∨ c.toNat = 13 ∨
    c.toNat = 11 ∨ c.toNat = 12 ∨ c.toNat = 160)

/-- `String.prototype.toLowerCase` restricted to the ASCII range (the only
case mapping exercised by this data). -/
def jsToLower (c : Char) : Char :=
  if 65 ≤ c.toNat ∧ c.toNat ≤ 90 then Char.ofNat (c.toNat + 32) else c

/-- `text.trim()` — strip leading whitespace. -/
def trimLeft (s : List Char) : List Char := s.dropWhile isWs

/-- `text.trim()` — strip trailing whitespace. -/
def trimRight (s : List Char) : List Char := (s.reverse.dropWhile isWs).reverse

/-- `text.trim()`. -/
def jsTrim (s : List Char) : List Char := trimRight (trimLeft s)

/-- Worker for `replace(/\s+/g, ' ')`: `inRun` records whether the previous
character belonged to a whitespace run (so the run emits only one space). -/
def collapseWsAux : Bool → List Char → List Char
  | _, [] => []
  | inRun, c :: cs =>
    if isWs c then
      if inRun then collapseWsAux true cs else ' ' :: collapseWsAux true cs
    else c :: collapseWsAux false cs

/-- `replace(/\s+/g, ' ')`: every maximal whitespace run becomes one space. -/
def collapseWs (s : List Char) : List Char := collapseWsAux false s

/-- `Utils.normalizeDesignation` on a character list:
`text.trim().replace(/\s+/g, ' ').toLowerCase()`. -/
def normList (s : List Char) : List Char := (collapseWs (jsTrim s)).map jsToLower

/-- `Utils.normalizeDesignation`. -/
def normalizeDesignation (s : String) : String := ⟨normList s.data⟩

example : normalizeDesignation "Spool  Yard" = "spool yard" := by decide
example : normalizeDesignation "  a B\tc " = "a b c" := by decide

-- ============================================
-- Whitespace-separated words: the spec-side view of a label
-- ============================================

/-- Segments of a character list split at every whitespace character
(adjacent separators produce empty segments, like `String.split`). -/
def segsOf : List Char → List (List Char)
  | [] => [[]]
  | c :: cs =>
    if isWs c then [] :: segsOf cs
    else
      match segsOf cs with
      | [] => [[c]]
      | w :: ws => (c :: w) :: ws

/-- The whitespace-separated words of a label, in order. -/
def wordsOf (s : List Char) : List (List Char) :=
  (segsOf s).filter (fun w => !w.isEmpty)

/-- Join words with single spaces (the canonical normalized spelling). -/
def joinWords : List (List Char) → List Char
  | [] => []
  | [w] => w
  | w :: v :: ws => w ++ ' ' :: joinWords (v :: ws)

/-- The spec's equivalence on labels: `a` and `b` "differ only in letter
case or in the length/position of whitespace runs", read as: they carry the
same sequence of whitespace-separated words up to letter case. -/
def differOnlyInCaseOrWhitespace (a b : List Char) : Prop :=
  (wordsOf a).map (List.map jsToLower) = (wordsOf b).map (List.map jsToLower)

-- ============================================
-- Lemmas: whitespace and lowering
-- ============================================

theorem toNat_ofNat_small {n : Nat} (h : n < 55296) : (Char.ofNat n).toNat = n := by
  have hv : Nat.isValidChar n := Or.inl h
  simp [Char.ofNat, hv, Char.ofNatAux, Char.toNat, UInt32.toNat, UInt32.ofNatCore]

theorem isWs_jsToLower (c : Char) : isWs (jsToLower c) = isWs c := by
  unfold jsToLower
  split
  · rename_i h
    have h1 : (Char.ofNat (c.toNat + 32)).toNat = c.toNat + 32 :=
      toNat_ofNat_small (by omega)
    simp only [isWs, h1]
    rw [decide_eq_decide]
    omega
  · rfl

theorem jsToLower_space : jsToLower ' ' = ' ' := by decide

theorem isWs_space : isWs ' ' = true := by decide

theorem head_dropWhile_false {α : Type} {p : α → Bool} {l : List α} {c : α} {cs : List α}
    (h : l.dropWhile p = c :: cs) : p c = false := by
  induction l with
  | nil => simp at h
  | cons x xs ih =>
    rw [List.dropWhile_cons] at h
    split at h
    · exact ih h
    · rename_i hx
      cases h
      exact Bool.eq_false_iff.mpr hx

theorem dropWhile_eq_self_of_head {α : Type} {p : α → Bool} {l : List α}
    (h : ∀ c cs, l = c :: cs → p c = false) : l.dropWhile p = l := by
  cases l with
  | nil => rfl
  | cons x xs => simp [List.dropWhile_cons, h x xs rfl]

-- ============================================
-- Lemmas: collapseWs
-- ============================================

theorem collapseWsAux_nonws_append (w t : List Char) (hw : ∀ c ∈ w, isWs c = false)
    (hne : w ≠ []) (b : Bool) :
    collapseWsAux b (w ++ t) = w ++ collapseWsAux false t := by
  induction w generalizing b with
  | nil => exact absurd rfl hne
  | cons c cs ih =>
    have hc : isWs c = false := hw c (List.mem_cons_self _ _)
    cases cs with
    | nil => simp [collapseWsAux, hc]
    | cons d ds =>
      rw [List.cons_append, show collapseWsAux b (c :: (d :: ds ++ t)) =
        c :: collapseWsAux false (d :: ds ++ t) by simp [collapseWsAux, hc]]
      rw [ih (fun x hx => hw x (List.mem_cons_of_mem _ hx)) (by simp) false]
      rfl

theorem collapseWsAux_true_allws (u t : List Char) (hu : ∀ c ∈ u, isWs c = true)
    (ht : ∀ c cs, t = c :: cs → isWs c = false) :
    collapseWsAux true (u ++ t) = collapseWsAux false t := by
  induction u with
  | nil =>
    cases t with
    | nil => rfl
    | cons c cs => simp [collapseWsAux, ht c cs rfl]
  | cons d u' ih =>
    have hd : isWs d = true := hu d (List.mem_cons_self _ _)
    rw [List.cons_append, show collapseWsAux true (d :: (u' ++ t)) =
      collapseWsAux true (u' ++ t) by simp [collapseWsAux, hd]]
    exact ih (fun c hc => hu c (List.mem_cons_of_mem _ hc))

theorem collapseWs_ws_append (u t : List Char) (hune : u ≠ [])
    (hu : ∀ c ∈ u, isWs c = true) (ht : ∀ c cs, t = c :: cs → isWs c = false) :
    collapseWsAux false (u ++ t) = ' ' :: collapseWsAux false t := by
  cases u with
  | nil => exact absurd rfl hune
  | cons d u' =>
    have hd : isWs d = true := hu d (List.mem_cons_self _ _)
    rw [List.cons_append, show collapseWsAux false (d :: (u' ++ t)) =
      ' ' :: collapseWsAux true (u' ++ t) by simp [collapseWsAux, hd]]
    rw [collapseWsAux_true_allws u' t (fun c hc => hu c (List.mem_cons_of_mem _ hc)) ht]

theorem collapseWs_nonws (w : List Char) (hw : ∀ c ∈ w, isWs c = false) :
    collapseWs w = w := by
  cases w with
  | nil => rfl
  | cons c cs =>
    have h := collapseWsAux_nonws_append (c :: cs) [] hw (by simp) false
    have h0 : collapseWsAux false ([] : List Char) = [] := rfl
    simpa [collapseWs, h0] using h

-- ============================================
-- Lemmas: trimming
-- ============================================

theorem trimRight_append_of_exists (x y : List Char) (hy : ∃ c ∈ y, isWs c = false) :
    trimRight (x ++ y) = x ++ trimRight y := by
  unfold trimRight
  rw [List.reverse_append, List.dropWhile_append, if_neg]
  · rw [List.reverse_append, List.reverse_reverse]
  · obtain ⟨c, hc, hcw⟩ := hy
    rw [List.isEmpty_iff, List.dropWhile_eq_nil_iff]
    intro hall
    have := hall c (by simp [hc])
    rw [hcw] at this
    exact Bool.false_ne_true this

theorem trimRight_allws (y : List Char) (hy : ∀ c ∈ y, isWs c = true) :
    trimRight y = [] := by
  unfold trimRight
  rw [List.dropWhile_eq_nil_iff.mpr (fun c hc => hy c (by simpa using hc))]
  rfl

theorem trimRight_cons_of_nonws (c : Char) (x : List Char) (hc : isWs c = false) :
    trimRight (c :: x) = c :: trimRight x := by
  unfold trimRight
  rw [show (c :: x).reverse = x.reverse ++ [c] by simp, List.dropWhile_append]
  split
  · rename_i h
    rw [List.isEmpty_iff] at h
    rw [h]
    simp [List.dropWhile_cons, hc]
  · simp

-- ============================================
-- Lemmas: segsOf / wordsOf
-- ============================================

theorem segsOf_ne_nil (s : List Char) : segsOf s ≠ [] := by
  cases s with
  | nil => simp [segsOf]
  | cons c cs =>
    unfold segsOf
    split
    · simp
    · split <;> simp

theorem segsOf_cons_ws (c : Char) (cs : List Char) (h : isWs c = true) :
    segsOf (c :: cs) = [] :: segsOf cs := by
  simp [segsOf, h]

theorem segsOf_cons_nonws (c : Char) (cs : List Char) (h : isWs c = false)
    {v : List Char} {vs : List (List Char)} (hseg : segsOf cs = v :: vs) :
    segsOf (c :: cs) = (c :: v) :: vs := by
  simp [segsOf, h, hseg]

theorem segsOf_nonws_append (w r : List Char) (hw : ∀ c ∈ w, isWs c = false)
    (v : List Char) (vs : List (List Char)) (hseg : segsOf r = v :: vs) :
    segsOf (w ++ r) = (w ++ v) :: vs := by
  induction w with
  | nil => simpa using hseg
  | cons c w' ih =>
    have h2 := ih (fun x hx => hw x (List.mem_cons_of_mem _ hx))
    rw [List.cons_append, segsOf_cons_nonws c _ (hw c (List.mem_cons_self _ _)) h2]
    rfl

theorem segs_nonws (s : List Char) : ∀ w ∈ segsOf s, ∀ c ∈ w, isWs c = false := by
  induction s with
  | nil =>
    intro w hw c hc
    simp [segsOf] at hw
    subst hw
    simp at hc
  | cons d ds ih =>
    intro w hw c hc
    by_cases hd : isWs d = true
    · rw [segsOf_cons_ws d ds hd] at hw
      rcases List.mem_cons.mp hw with h | h
      · subst h; simp at hc
      · exact ih w h c hc
    · have hd' : isWs d = false := Bool.eq_false_iff.mpr hd
      obtain ⟨v, vs, hv⟩ : ∃ v vs, segsOf ds = v :: vs := by
        cases h : segsOf ds with
        | nil => exact absurd h (segsOf_ne_nil ds)
        | cons a l => exact ⟨a, l, rfl⟩
      rw [segsOf_cons_nonws d ds hd' hv] at hw
      rcases List.mem_cons.mp hw with h | h
      · subst h
        rcases List.mem_cons.mp hc with h | h
        · subst h; exact hd'
        · exact ih v (hv ▸ List.mem_cons_self _ _) c h
      · exact ih w (hv ▸ List.mem_cons_of_mem _ h) c hc

theorem wordsOf_ws_skip (u t : List Char) (hu : ∀ c ∈ u, isWs c = true) :
    wordsOf (u ++ t) = wordsOf t := by
  induction u with
  | nil => rfl
  | cons d u' ih =>
    unfold wordsOf
    rw [List.cons_append, segsOf_cons_ws d _ (hu d (List.mem_cons_self _ _)),
      List.filter_cons]
    simp only [List.isEmpty_nil, Bool.not_true, if_false]
    exact ih (fun c hc => hu c (List.mem_cons_of_mem _ hc))

theorem wordsOf_word_append (w r : List Char) (hw : ∀ c ∈ w, isWs c = false)
    (hwne : w ≠ []) (hr : ∀ c cs, r = c :: cs → isWs c = true) :
    wordsOf (w ++ r) = w :: wordsOf r := by
  cases r with
  | nil =>
    have h2 := segsOf_nonws_append w [] hw [] [] rfl
    unfold wordsOf
    rw [h2, List.filter_cons]
    simp [hwne, segsOf]
  | cons c cs =>
    have hc := hr c cs rfl
    have h2 := segsOf_nonws_append w (c :: cs) hw _ _ (segsOf_cons_ws c cs hc)
    unfold wordsOf
    rw [h2, segsOf_cons_ws c cs hc, List.filter_cons, List.filter_cons]
    simp [hwne]

theorem wordsOf_cons_nonws_ne_nil (c : Char) (x : List Char) (hc : isWs c = false) :
    wordsOf (c :: x) ≠ [] := by
  have hsplit : (c :: x).takeWhile (fun a => !isWs a) ++
      (c :: x).dropWhile (fun a => !isWs a) = c :: x :=
    List.takeWhile_append_dropWhile _ _
  have hw : ∀ a ∈ (c :: x).takeWhile (fun a => !isWs a), isWs a = false := by
    intro a ha
    have := List.mem_takeWhile_imp ha
    simpa using this
  have hwne : (c :: x).takeWhile (fun a => !isWs a) ≠ [] := by
    rw [List.takeWhile_cons, if_pos (by simp [hc])]
    simp
  have hr : ∀ d ds, (c :: x).dropWhile (fun a => !isWs a) = d :: ds → isWs d = true := by
    intro d ds h
    have := head_dropWhile_false h
    simpa using this
  rw [← hsplit, wordsOf_word_append _ _ hw hwne hr]
  simp


-- ============================================
-- Canonical form: trim+collapse = joined words
-- ============================================

theorem collapse_trim_aux : ∀ (n : Nat) (s : List Char), s.length ≤ n →
    collapseWs (jsTrim s) = joinWords (wordsOf s) := by
  intro n
  induction n with
  | zero =>
    intro s hs
    have : s = [] := by cases s with | nil => rfl | cons a l => simp at hs
    subst this
    rfl
  | succ n ih =>
    intro s hs
    have hsplit : s.takeWhile isWs ++ s.dropWhile isWs = s :=
      List.takeWhile_append_dropWhile _ _
    cases htd : s.dropWhile isWs with
    | nil =>
      have hall : ∀ c ∈ s, isWs c = true := by
        rw [List.dropWhile_eq_nil_iff] at htd
        exact fun c hc => htd c hc
      have hwords : wordsOf s = [] := by
        have h := wordsOf_ws_skip s [] hall
        simpa using h
      rw [hwords]
      unfold jsTrim trimLeft
      rw [htd]
      rfl
    | cons c cs =>
      have hc : isWs c = false := head_dropWhile_false htd
      -- the first word and the remainder
      have hwr : (c :: cs).takeWhile (fun a => !isWs a) ++
          (c :: cs).dropWhile (fun a => !isWs a) = c :: cs :=
        List.takeWhile_append_dropWhile _ _
      have hw_nonws : ∀ a ∈ (c :: cs).takeWhile (fun a => !isWs a), isWs a = false := by
        intro a ha
        have := List.mem_takeWhile_imp ha
        simpa using this
      have hw_ne : (c :: cs).takeWhile (fun a => !isWs a) ≠ [] := by
        rw [List.takeWhile_cons, if_pos (by simp [hc])]
        simp
      have hr_head : ∀ d ds, (c :: cs).dropWhile (fun a => !isWs a) = d :: ds →
          isWs d = true := by
        intro d ds h
        have := head_dropWhile_false h
        simpa using this
      have hpre : ∀ a ∈ s.takeWhile isWs, isWs a = true := by
        intro a ha
        exact List.mem_takeWhile_imp ha
      -- wordsOf s
      have hwords : wordsOf s = (c :: cs).takeWhile (fun a => !isWs a) ::
          wordsOf ((c :: cs).dropWhile (fun a => !isWs a)) := by
        conv_lhs => rw [← hsplit, htd]
        rw [wordsOf_ws_skip _ _ hpre]
        conv_lhs => rw [← hwr]
        rw [wordsOf_word_append _ _ hw_nonws hw_ne hr_head]
      -- jsTrim s
      have htrim : jsTrim s = trimRight ((c :: cs).takeWhile (fun a => !isWs a) ++
          (c :: cs).dropWhile (fun a => !isWs a)) := by
        unfold jsTrim trimLeft
        rw [htd, hwr]
      -- length bookkeeping
      have hlen : cs.length + 1 ≤ s.length := by
        have := congrArg List.length hsplit
        simp [htd] at this
        omega
      cases hr2 : ((c :: cs).dropWhile (fun a => !isWs a)).dropWhile isWs with
      | nil =>
        -- the remainder is all whitespace
        have hrall : ∀ a ∈ (c :: cs).dropWhile (fun a => !isWs a), isWs a = true := by
          rw [List.dropWhile_eq_nil_iff] at hr2
          exact fun a ha => hr2 a ha
        have hwr2 : wordsOf ((c :: cs).dropWhile (fun a => !isWs a)) = [] := by
          have h := wordsOf_ws_skip _ [] hrall
          simpa using h
        rw [hwords, hwr2, htrim]
        have ht1 : trimRight ((c :: cs).takeWhile (fun a => !isWs a) ++
            (c :: cs).dropWhile (fun a => !isWs a)) =
            (c :: cs).takeWhile (fun a => !isWs a) := by
          unfold trimRight
          rw [List.reverse_append, List.dropWhile_append_of_pos
            (by intro a ha; simpa using hrall a (by simpa using ha)),
            dropWhile_eq_self_of_head (by
              intro d ds h
              have hd : d ∈ (c :: cs).takeWhile (fun a => !isWs a) := by
                have : d ∈ ((c :: cs).takeWhile (fun a => !isWs a)).reverse := by
                  rw [h]; exact List.mem_cons_self _ _
                simpa using this
              exact hw_nonws d hd)]
          simp
        rw [ht1, collapseWs_nonws _ hw_nonws]
        rfl
      | cons e es =>
        have he : isWs e = false := head_dropWhile_false hr2
        -- decompose the remainder r = u ++ r₂ (whitespace run, then rest)
        have husplit : ((c :: cs).dropWhile (fun a => !isWs a)).takeWhile isWs ++
            ((c :: cs).dropWhile (fun a => !isWs a)).dropWhile isWs =
            (c :: cs).dropWhile (fun a => !isWs a) :=
          List.takeWhile_append_dropWhile _ _
        have hu_all : ∀ a ∈ ((c :: cs).dropWhile (fun a => !isWs a)).takeWhile isWs,
            isWs a = true := fun a ha => List.mem_takeWhile_imp ha
        have hu_ne : ((c :: cs).dropWhile (fun a => !isWs a)).takeWhile isWs ≠ [] := by
          cases hrc : (c :: cs).dropWhile (fun a => !isWs a) with
          | nil => rw [hrc] at hr2; simp at hr2
          | cons d ds =>
            rw [List.takeWhile_cons, if_pos (hr_head d ds hrc)]
            simp
        -- words of the remainder
        have hwr3 : wordsOf ((c :: cs).dropWhile (fun a => !isWs a)) =
            wordsOf (e :: es) := by
          conv_lhs => rw [← husplit, hr2]
          exact wordsOf_ws_skip _ _ hu_all
        have hwne2 : wordsOf (e :: es) ≠ [] := wordsOf_cons_nonws_ne_nil e es he
        -- trimming the remainder
        have hmem_e : e ∈ (c :: cs).dropWhile (fun a => !isWs a) := by
          rw [← husplit, hr2]
          exact List.mem_append_right _ (List.mem_cons_self _ _)
        have ht2 : trimRight ((c :: cs).takeWhile (fun a => !isWs a) ++
            (c :: cs).dropWhile (fun a => !isWs a)) =
            (c :: cs).takeWhile (fun a => !isWs a) ++
            (((c :: cs).dropWhile (fun a => !isWs a)).takeWhile isWs ++
              trimRight (e :: es)) := by
          rw [trimRight_append_of_exists _ _ ⟨e, hmem_e, he⟩]
          conv_lhs => rw [← husplit, hr2]
          rw [trimRight_append_of_exists _ _ ⟨e, List.mem_cons_self _ _, he⟩]
        -- head of trimRight (e :: es) is e (non-whitespace)
        have ht3 : trimRight (e :: es) = e :: trimRight es :=
          trimRight_cons_of_nonws e es he
        -- collapse
        have hcol : collapseWs (jsTrim s) =
            (c :: cs).takeWhile (fun a => !isWs a) ++
              ' ' :: collapseWs (trimRight (e :: es)) := by
          rw [htrim, ht2]
          unfold collapseWs
          rw [collapseWsAux_nonws_append _ _ hw_nonws hw_ne,
            collapseWs_ws_append _ _ hu_ne hu_all (by
              intro d ds h
              rw [ht3] at h
              cases h
              exact he)]
        -- induction hypothesis on (e :: es)
        have hlen2 : (e :: es).length ≤ n := by
          have h1 : ((c :: cs).dropWhile (fun a => !isWs a)).length ≤ cs.length := by
            rw [List.dropWhile_cons, if_pos (by simp [hc])]
            have h := congrArg List.length
              (List.takeWhile_append_dropWhile (fun a => !isWs a) cs)
            simp only [List.length_append] at h
            omega
          have h2 : es.length + 1 ≤
              ((c :: cs).dropWhile (fun a => !isWs a)).length := by
            have h := congrArg List.length husplit
            rw [hr2] at h
            simp only [List.length_append, List.length_cons] at h
            omega
          simp only [List.length_cons]
          omega
        have hih := ih (e :: es) hlen2
        have htel : jsTrim (e :: es) = trimRight (e :: es) := by
          unfold jsTrim trimLeft
          rw [List.dropWhile_cons, if_neg (by simp [he])]
        rw [htel] at hih
        rw [hcol, hih, hwords, hwr3]
        -- join
        cases hjw : wordsOf (e :: es) with
        | nil => exact absurd hjw hwne2
        | cons q qs => rfl

theorem collapse_trim_eq_joinWords (s : List Char) :
    collapseWs (jsTrim s) = joinWords (wordsOf s) :=
  collapse_trim_aux s.length s (Nat.le_refl _)

theorem map_joinWords : ∀ (L : List (List Char)),
    (joinWords L).map jsToLower = joinWords (L.map (List.map jsToLower))
  | [] => rfl
  | [w] => rfl
  | w :: v :: ws => by
    have ihm := map_joinWords (v :: ws)
    show (w ++ ' ' :: joinWords (v :: ws)).map jsToLower = _
    rw [List.map_append, List.map_cons, jsToLower_space, ihm]
    rfl

theorem normList_eq_joinWords (s : List Char) :
    normList s = joinWords ((wordsOf s).map (List.map jsToLower)) := by
  unfold normList
  rw [collapse_trim_eq_joinWords, map_joinWords]

-- ============================================
-- Injectivity of the canonical form
-- ============================================

/-- Word lists produced by `wordsOf`: nonempty, whitespace-free words. -/
def goodWords (L : List (List Char)) : Prop :=
  ∀ w ∈ L, w ≠ [] ∧ ∀ c ∈ w, isWs c = false

theorem joinWords_cons (w : List Char) (L : List (List Char)) :
    joinWords (w :: L) = w ++ (if L.isEmpty then [] else ' ' :: joinWords L) := by
  cases L with
  | nil => simp [joinWords]
  | cons v vs => simp [joinWords]

theorem sep_head_ws (L : List (List Char)) :
    ∀ c cs, (if L.isEmpty then ([] : List Char) else ' ' :: joinWords L) = c :: cs →
      isWs c = true := by
  intro c cs h
  cases L with
  | nil => simp at h
  | cons v vs =>
    simp only [List.isEmpty_cons] at h
    rw [if_neg (by simp)] at h
    cases h
    exact isWs_space

theorem takeWhile_word_sep (w r : List Char) (hw : ∀ c ∈ w, isWs c = false)
    (hr : ∀ c cs, r = c :: cs → isWs c = true) :
    (w ++ r).takeWhile (fun c => !isWs c) = w := by
  rw [List.takeWhile_append_of_pos (by intro a ha; simp [hw a ha])]
  cases r with
  | nil => simp
  | cons c cs =>
    rw [List.takeWhile_cons, if_neg (by simp [hr c cs rfl])]
    simp

theorem dropWhile_word_sep (w r : List Char) (hw : ∀ c ∈ w, isWs c = false)
    (hr : ∀ c cs, r = c :: cs → isWs c = true) :
    (w ++ r).dropWhile (fun c => !isWs c) = r := by
  rw [List.dropWhile_append_of_pos (by intro a ha; simp [hw a ha])]
  cases r with
  | nil => rfl
  | cons c cs => rw [List.dropWhile_cons, if_neg (by simp [hr c cs rfl])]

theorem joinWords_inj : ∀ (L1 L2 : List (List Char)), goodWords L1 → goodWords L2 →
    joinWords L1 = joinWords L2 → L1 = L2
  | [], [], _, _, _ => rfl
  | [], w :: L, _, h2, heq => by
    exfalso
    rw [joinWords_cons] at heq
    have hwne := (h2 w (List.mem_cons_self _ _)).1
    have : joinWords ([] : List (List Char)) = [] := rfl
    rw [this] at heq
    rcases List.append_eq_nil.mp heq.symm with ⟨hw, _⟩
    exact hwne hw
  | w :: L, [], h1, _, heq => by
    exfalso
    rw [joinWords_cons] at heq
    have hwne := (h1 w (List.mem_cons_self _ _)).1
    have : joinWords ([] : List (List Char)) = [] := rfl
    rw [this] at heq
    rcases List.append_eq_nil.mp heq with ⟨hw, _⟩
    exact hwne hw
  | w1 :: L1, w2 :: L2, h1, h2, heq => by
    rw [joinWords_cons, joinWords_cons] at heq
    have hw1 := (h1 w1 (List.mem_cons_self _ _)).2
    have hw2 := (h2 w2 (List.mem_cons_self _ _)).2
    have hwq : w1 = w2 := by
      have e1 := takeWhile_word_sep w1 _ hw1 (sep_head_ws L1)
      have e2 := takeWhile_word_sep w2 _ hw2 (sep_head_ws L2)
      rw [← e1, ← e2, heq]
    have hrest : (if L1.isEmpty then ([] : List Char) else ' ' :: joinWords L1) =
        (if L2.isEmpty then ([] : List Char) else ' ' :: joinWords L2) := by
      have e1 := dropWhile_word_sep w1 _ hw1 (sep_head_ws L1)
      have e2 := dropWhile_word_sep w2 _ hw2 (sep_head_ws L2)
      rw [← e1, ← e2, heq]
    cases L1 with
    | nil =>
      cases L2 with
      | nil => rw [hwq]
      | cons v vs => simp at hrest
    | cons u us =>
      cases L2 with
      | nil => simp at hrest
      | cons v vs =>
        simp only [List.isEmpty_cons, if_neg, Bool.false_eq_true,
          not_false_eq_true, List.cons.injEq] at hrest
        have hj := joinWords_inj (u :: us) (v :: vs)
          (fun x hx => h1 x (List.mem_cons_of_mem _ hx))
          (fun x hx => h2 x (List.mem_cons_of_mem _ hx)) hrest.2
        rw [hwq, hj]

theorem goodWords_wordsOf (s : List Char) : goodWords (wordsOf s) := by
  intro w hw
  have hmem := List.mem_filter.mp hw
  refine ⟨?_, ?_⟩
  · have := hmem.2
    simpa [List.isEmpty_iff] using this
  · exact segs_nonws s w hmem.1

theorem goodWords_map_lower (L : List (List Char)) (h : goodWords L) :
    goodWords (L.map (List.map jsToLower)) := by
  intro w hw
  obtain ⟨v, hv, rfl⟩ := List.mem_map.mp hw
  refine ⟨?_, ?_⟩
  · simp [(h v hv).1]
  · intro c hc
    obtain ⟨d, hd, rfl⟩ := List.mem_map.mp hc
    rw [isWs_jsToLower]
    exact (h v hv).2 d hd

/-- C5: `normalize(a) == normalize(b)` iff `a` and `b` differ only in letter
case or in whitespace run-length/position (same whitespace-separated words
up to case); in particular `"Spool  Yard"` and `"spool yard"` produce the
same key. -/
theorem normalizeDesignation_eq_iff :
    (∀ a b : String, normalizeDesignation a = normalizeDesignation b ↔
      differOnlyInCaseOrWhitespace a.data b.data) ∧
    normalizeDesignation "Spool  Yard" = normalizeDesignation "spool yard" := by
  constructor
  · intro a b
    constructor
    · intro h
      have h' : normList a.data = normList b.data := congrArg String.data h
      rw [normList_eq_joinWords, normList_eq_joinWords] at h'
      exact joinWords_inj _ _
        (goodWords_map_lower _ (goodWords_wordsOf _))
        (goodWords_map_lower _ (goodWords_wordsOf _)) h'
    · intro h
      show (⟨normList a.data⟩ : String) = ⟨normList b.data⟩
      have : normList a.data = normList b.data := by
        rw [normList_eq_joinWords, normList_eq_joinWords]
        unfold differOnlyInCaseOrWhitespace at h
        rw [h]
      rw [this]
  · decide

-- ============================================
-- Storage (localStorage access, one document per key)
-- ============================================

/-- The default date document created lazily by `getAttendanceForDate`. -/
def emptyDateData : DateData :=
  { areas := [], audit := [], updatedAt := none, updatedBy := none }

/-- `Storage.getAttendanceForDate`: reads the attendance map, inserts an
empty document for the date into the *in-memory* copy if absent, and
returns that document.  Nothing is written back to the store. -/
def Storage.getAttendanceForDate (st : Store) (dateStr : String) : DateData × Store :=
  let all := st.attendance
  let all2 := if (objGet all dateStr).isNone then objSet all dateStr emptyDateData else all
  ((objGet all2 dateStr).getD emptyDateData, st)

/-- The document value read by `Storage.getAttendanceForDate`. -/
def Storage.readDate (st : Store) (dateStr : String) : DateData :=
  (Storage.getAttendanceForDate st dateStr).1

/-- `Storage.saveAttendanceForDate`: replace one date's document and
persist the whole attendance map. -/
def Storage.saveAttendanceForDate (st : Store) (dateStr : String) (data : DateData) : Store :=
  { st with attendance := objSet st.attendance dateStr data }

-- ============================================
-- Auth (login / lockout / session)
-- ============================================

/-- `Auth.logout`: clears `currentUser`/`expiresAt`, leaves `failedLogin`. -/
def Auth.logout (st : Store) : Store :=
  { st with session := { st.session with currentUser := none, expiresAt := none } }

/-- The JS truthiness test `sess.expiresAt && Date.now() > sess.expiresAt`
(`null` and `0` are falsy). -/
def expiryDue (expiresAt : Option Nat) (now : Nat) : Bool :=
  match expiresAt with
  | none => false
  | some e => !(e == 0) && decide (now > e)

/-- `Auth.getCurrentUser`: side-effecting read — an expired, dangling or
disabled session is implicitly logged out. -/
def Auth.getCurrentUser (st : Store) (now : Nat) : Option User × Store :=
  match st.session.currentUser with
  | none => (none, st)
  | some uname =>
    if uname == "" then (none, st)
    else if expiryDue st.session.expiresAt now then (none, Auth.logout st)
    else
      match st.users.find? (fun u => u.username == uname) with
      | none => (none, Auth.logout st)
      | some user => if user.disabled then (none, Auth.logout st) else (some user, st)

/-- The errors `Auth.login` can throw. -/
inductive AuthError where
  | accountLocked (remainingMinutes : Nat)
  | invalidCredentials
  | accountDisabled
deriving DecidableEq, Repr

/-- `Auth._handleFailedLogin`: bump the counter; at `MAX_LOGIN_ATTEMPTS`
or beyond, start a fresh cooldown. -/
def Auth.handleFailedLogin (st : Store) (now : Nat) : Store :=
  let sess := st.session
  let count2 := sess.failedLogin.count + 1
  let cu2 := if count2 ≥ MAX_LOGIN_ATTEMPTS then some (now + LOCKOUT_DURATION)
             else sess.failedLogin.cooldownUntil
  { st with session := { sess with failedLogin := { count := count2, cooldownUntil := cu2 } } }

/-- The JS truthiness test
`sess.failedLogin.cooldownUntil && Date.now() < sess.failedLogin.cooldownUntil`. -/
def lockActive (sess : Session) (now : Nat) : Bool :=
  match sess.failedLogin.cooldownUntil with
  | none => false
  | some cu => !(cu == 0) && decide (now < cu)

/-- `Auth.login`.  The password digest is an explicit function argument
(`Utils.hashPassword` is an awaited SHA-256 call).  The returned store
carries the side effects performed before a throw. -/
def Auth.login (hash : String → String → String) (st : Store) (now : Nat)
    (username password : String) : Except AuthError Unit × Store :=
  let sess := st.session
  if lockActive sess now then
    let cu := sess.failedLogin.cooldownUntil.getD 0
    (Except.error (AuthError.accountLocked ((cu - now + 59999) / 60000)), st)
  else
    match st.users.find? (fun u => u.username == username) with
    | none => (Except.error AuthError.invalidCredentials, Auth.handleFailedLogin st now)
    | some user =>
      if user.disabled then (Except.error AuthError.accountDisabled, st)
      else if !(hash password user.salt == user.passwordHash) then
        (Except.error AuthError.invalidCredentials, Auth.handleFailedLogin st now)
      else
        (Except.ok (),
          { st with session :=
            { currentUser := some username,
              expiresAt := some (now + SESSION_DURATION),
              failedLogin := { count := 0, cooldownUntil := none } } })

-- ============================================
-- Audit trail
-- ============================================

/-- `Audit.addEntry`: no-op without a live session; otherwise unshift the
entry into the date's audit ring, trim to `MAX_AUDIT_ENTRIES`, persist. -/
def Audit.addEntry (st : Store) (now : Nat) (dateStr areaName designationKey field : String)
    (oldVal newVal : JVal) : Store :=
  match Auth.getCurrentUser st now with
  | (none, st2) => st2
  | (some user, st2) =>
    let data := Storage.readDate st2 dateStr
    let audit1 : List AuditEntry :=
      { ts := now, user := user.username, area := areaName,
        designationKey := designationKey, field := field,
        fromVal := oldVal, toVal := newVal } :: data.audit
    let audit2 := if audit1.length > MAX_AUDIT_ENTRIES then audit1.take MAX_AUDIT_ENTRIES
                  else audit1
    Storage.saveAttendanceForDate st2 dateStr { data with audit := audit2 }

/-- `Audit.getEntries`: newest-first audit list of a date (pure read). -/
def Audit.getEntries (st : Store) (dateStr : String) : List AuditEntry × Store :=
  ((Storage.readDate st dateStr).audit, st)

-- ============================================
-- Designation history / autocomplete
-- ============================================

/-- `DesignationMgr.addToHistory`. -/
def DesignationMgr.addToHistory (st : Store) (designationLabel areaName : String) : Store :=
  let norm := normalizeDesignation designationLabel
  let h := st.designationHistory
  let g1 := h.global.filter (fun d => !(normalizeDesignation d == norm))
  let g2 := (designationLabel :: g1).take MAX_GLOBAL_DESIGNATION_HISTORY
  let ae := (objGet h.byArea areaName).getD []
  let a1 := ae.filter (fun d => !(normalizeDesignation d == norm))
  let a2 := (designationLabel :: a1).take MAX_AREA_DESIGNATION_HISTORY
  { st with designationHistory := { global := g2, byArea := objSet h.byArea areaName a2 } }

/-- JS `a.includes(b)`: `b` is a contiguous substring of `a`. -/
def strIncludes (a b : String) : Bool := decide (b.data <:+: a.data)

/-- `DesignationMgr.getSuggestions` (pure read). -/
def DesignationMgr.getSuggestions (st : Store) (partialStr areaName : String) : List String :=
  let norm := normalizeDesignation partialStr
  let h := st.designationHistory
  let suggestions :=
    if !(areaName == "") && (objGet h.byArea areaName).isSome then
      ((objGet h.byArea areaName).getD []).filter
        (fun d => strIncludes (normalizeDesignation d) norm)
    else []
  if suggestions.length < 5 then
    let globalM := h.global.filter
      (fun d => strIncludes (normalizeDesignation d) norm && !(suggestions.contains d))
    (suggestions ++ globalM).take 5
  else suggestions

-- ============================================
-- Attendance ledger
-- ============================================

/-- `Attendance.getAreaData` (pure read). -/
def Attendance.getAreaData (st : Store) (dateStr areaName : String) : AreaData × Store :=
  let p := Storage.getAttendanceForDate st dateStr
  ((objGet p.1.areas areaName).getD { rows := [] }, p.2)

/-- `Attendance.getRow` (pure read; `undefined` for a missing row). -/
def Attendance.getRow (st : Store) (dateStr areaName designationKey : String) :
    Option Row × Store :=
  let p := Attendance.getAreaData st dateStr areaName
  (p.1.rows.find? (fun r => r.designationKey == designationKey), p.2)

/-- `Attendance.addOrUpdateRow`: no-op without a live session; otherwise
either return the existing row for the normalized key unchanged, or append
a fresh row (`present = null`, `confirmed = false`), record designation
usage, stamp the date document and persist. -/
def Attendance.addOrUpdateRow (st : Store) (now : Nat)
    (dateStr areaName designationLabel : String) : Store :=
  match Auth.getCurrentUser st now with
  | (none, st2) => st2
  | (some user, st2) =>
    let designationKey := normalizeDesignation designationLabel
    let data := Storage.readDate st2 dateStr
    let data2 := if (objGet data.areas areaName).isNone then
        { data with areas := objSet data.areas areaName { rows := [] } }
      else data
    let areaD := (objGet data2.areas areaName).getD { rows := [] }
    match areaD.rows.find? (fun r => r.designationKey == designationKey) with
    | some _ =>
      let data3 := { data2 with updatedAt := some now, updatedBy := some user.username }
      Storage.saveAttendanceForDate st2 dateStr data3
    | none =>
      let newRow : Row :=
        { designationKey := designationKey, designationLabel := designationLabel,
          present := JVal.null, confirmed := false, updatedAt := none, updatedBy := none }
      let data3 := { data2 with
        areas := objSet data2.areas areaName { rows := areaD.rows ++ [newRow] } }
      let st3 := DesignationMgr.addToHistory st2 designationLabel areaName
      let data4 := { data3 with updatedAt := some now, updatedBy := some user.username }
      Storage.saveAttendanceForDate st3 dateStr data4

/-- The `updates` object passed to `Attendance.updateRow`: each field is
present or absent (`'present' in updates`). -/
structure Updates where
  present : Option JVal
  confirmed : Option Bool
deriving DecidableEq, Repr

/-- `Object.assign(row, updates, {updatedAt, updatedBy})`. -/
def applyUpdates (r : Row) (u : Updates) (now : Nat) (uname : String) : Row :=
  { r with
    present := u.present.getD r.present,
    confirmed := u.confirmed.getD r.confirmed,
    updatedAt := some now,
    updatedBy := some uname }

/-- Replace the first row with the given key (JS mutates the object found
by `find`, which is the first match). -/
def setFirstRow : List Row → String → Row → List Row
  | [], _, _ => []
  | r :: rs, k, newRow =>
    if r.designationKey == k then newRow :: rs else r :: setFirstRow rs k newRow

/-- `Attendance.updateRow`.  Note the source's aliasing: the audit entries
are written through fresh reads of the date document inside
`Audit.addEntry`, while the final save writes back the document snapshot
`data` that was read *before* those audit writes. -/
def Attendance.updateRow (st : Store) (now : Nat)
    (dateStr areaName designationKey : String) (updates : Updates) : Store :=
  match Auth.getCurrentUser st now with
  | (none, st2) => st2
  | (some user, st2) =>
    let data := Storage.readDate st2 dateStr
    match objGet data.areas areaName with
    | none => st2
    | some areaD =>
      match areaD.rows.find? (fun r => r.designationKey == designationKey) with
      | none => st2
      | some oldRow =>
        let st3 := match updates.present with
          | some v =>
            if v ≠ oldRow.present then
              Audit.addEntry st2 now dateStr areaName designationKey "present" oldRow.present v
            else st2
          | none => st2
        let st4 := match updates.confirmed with
          | some b =>
            if b ≠ oldRow.confirmed then
              Audit.addEntry st3 now dateStr areaName designationKey "confirmed"
                (JVal.jbool oldRow.confirmed) (JVal.jbool b)
            else st3
          | none => st3
        let newRow := applyUpdates oldRow updates now user.username
        let data2 := { data with
          areas := objSet data.areas areaName
            { rows := setFirstRow areaD.rows designationKey newRow },
          updatedAt := some now,
          updatedBy := some user.username }
        Storage.saveAttendanceForDate st4 dateStr data2

/-- `Attendance.deleteRow`: no session check; removes the first matching
row and persists, or does nothing when area or row is missing. -/
def Attendance.deleteRow (st : Store) (dateStr areaName designationKey : String) : Store :=
  let data := Storage.readDate st dateStr
  match objGet data.areas areaName with
  | none => st
  | some areaD =>
    match areaD.rows.findIdx? (fun r => r.designationKey == designationKey) with
    | none => st
    | some idx =>
      let data2 := { data with
        areas := objSet data.areas areaName { rows := areaD.rows.eraseIdx idx } }
      Storage.saveAttendanceForDate st dateStr data2

/-- The record returned by `Attendance.getAreaTotals`
(JS keys `total` / `confirmed` / `rows`). -/
structure Totals where
  total : Int
  confirmed : Nat
  rows : Nat
deriving DecidableEq, Repr

/-- `Attendance.getAreaTotals` (pure read). -/
def Attendance.getAreaTotals (st : Store) (dateStr areaName : String) : Totals × Store :=
  let p := Attendance.getAreaData st dateStr areaName
  let total := p.1.rows.foldl
    (fun sum r => sum + (match r.present with | JVal.num n => n | _ => 0)) 0
  ({ total := total,
     confirmed := (p.1.rows.filter (fun r => r.confirmed)).length,
     rows := p.1.rows.length }, p.2)

/-- `Attendance.getGrandTotal` (pure read over a caller-supplied area list). -/
def Attendance.getGrandTotal (st : Store) (dateStr : String) (areas : List String) :
    Int × Store :=
  areas.foldl
    (fun acc areaName =>
      let p := Attendance.getAreaTotals acc.2 dateStr areaName
      (acc.1 + p.1.total, p.2))
    (0, st)

-- ============================================
-- Association-list and storage lemmas
-- ============================================

theorem objGet_objSet_self {α : Type} (m : List (String × α)) (k : String) (v : α) :
    objGet (objSet m k v) k = some v := by
  induction m with
  | nil => simp [objSet, objGet]
  | cons p ps ih =>
    by_cases hp : p.1 == k
    · simp [objSet, objGet, hp]
    · simp only [objSet, if_neg hp]
      simp [objGet, List.find?_cons, hp] at ih ⊢
      exact ih

theorem objGet_objSet_ne {α : Type} (m : List (String × α)) (k k' : String) (v : α)
    (h : k' ≠ k) : objGet (objSet m k v) k' = objGet m k' := by
  induction m with
  | nil => simp [objSet, objGet, List.find?_cons, show (k == k') = false by
      simpa using fun hh => h hh.symm]
  | cons p ps ih =>
    by_cases hp : p.1 == k
    · have hpk : p.1 = k := by simpa using hp
      simp only [objSet, if_pos hp]
      simp [objGet, List.find?_cons, show (k == k') = false by
        simpa using fun hh => h hh.symm, show (p.1 == k') = false by
        simp [hpk]; exact fun hh => h hh.symm]
    · simp only [objSet, if_neg hp]
      by_cases hq : p.1 == k'
      · simp [objGet, List.find?_cons, hq]
      · simp [objGet, List.find?_cons, hq] at ih ⊢
        exact ih

theorem readDate_eq (st : Store) (d : String) :
    Storage.readDate st d = (objGet st.attendance d).getD emptyDateData := by
  unfold Storage.readDate Storage.getAttendanceForDate
  cases h : objGet st.attendance d with
  | none => simp [h, objGet_objSet_self]
  | some data => simp [h]

theorem readDate_save_self (st : Store) (d : String) (data : DateData) :
    Storage.readDate (Storage.saveAttendanceForDate st d data) d = data := by
  rw [readDate_eq]
  unfold Storage.saveAttendanceForDate
  simp [objGet_objSet_self]

theorem save_session (st : Store) (d : String) (data : DateData) :
    (Storage.saveAttendanceForDate st d data).session = st.session := rfl

theorem save_users (st : Store) (d : String) (data : DateData) :
    (Storage.saveAttendanceForDate st d data).users = st.users := rfl

-- ============================================
-- C10: the read operations never write
-- ============================================

theorem getGrandTotal_frame (d : String) : ∀ (l : List String) (acc : Int × Store),
    (l.foldl (fun acc areaName =>
      let p := Attendance.getAreaTotals acc.2 d areaName
      (acc.1 + p.1.total, p.2)) acc).2 = acc.2 := by
  intro l
  induction l with
  | nil => intro acc; rfl
  | cons x xs ih =>
    intro acc
    rw [List.foldl_cons]
    rw [ih]
    rfl

/-- C10: `getRow`, `getAreaData`, `getAreaTotals`, `getGrandTotal` and the
audit `getEntries` (all built on `Storage.getAttendanceForDate`) leave the
persistent store exactly as they found it — in particular the lazily
created empty date document is never written back. -/
theorem readOps_never_write (st : Store) (d a k : String) (areas : List String) :
    (Storage.getAttendanceForDate st d).2 = st ∧
    (Attendance.getRow st d a k).2 = st ∧
    (Attendance.getAreaData st d a).2 = st ∧
    (Attendance.getAreaTotals st d a).2 = st ∧
    (Attendance.getGrandTotal st d areas).2 = st ∧
    (Audit.getEntries st d).2 = st :=
  ⟨rfl, rfl, rfl, rfl, getGrandTotal_frame d areas (0, st), rfl⟩

-- ============================================
-- C6: getAreaTotals
-- ============================================

/-- The attendance rows of one area of one date, as stored. -/
def rowsFor (st : Store) (d a : String) : List Row :=
  ((objGet (Storage.readDate st d).areas a).getD { rows := [] }).rows

/-- A logged-out session with no failed attempts. -/
def sess0 : Session :=
  { currentUser := none, expiresAt := none,
    failedLogin := { count := 0, cooldownUntil := none } }

/-- A row with the given key/label/present/confirmed and no stamps. -/
def mkRow (key lab : String) (p : JVal) (c : Bool) : Row :=
  { designationKey := key, designationLabel := lab, present := p,
    confirmed := c, updatedAt := none, updatedBy := none }

/-- A date document holding a single area with the given rows. -/
def mkDate (a : String) (rows : List Row) : DateData :=
  { areas := [(a, { rows := rows })], audit := [],
    updatedAt := none, updatedBy := none }

def c6Store : Store :=
  { session := sess0,
    users := [],
    attendance := [("2024-01-01", mkDate "Spool Yard"
      [mkRow "welder" "Welder" (JVal.num 3) true,
       mkRow "fitter" "Fitter" JVal.null false,
       mkRow "rigger" "Rigger" (JVal.num 5) true])],
    designationHistory := { global := [], byArea := [] } }

/-- C6: `areaTotals` returns the sum of the numeric `present` values (null
rows contribute 0), the number of confirmed rows, and the number of rows;
on the three-row example it returns `{total := 8, confirmed := 2, rows := 3}`. -/
theorem getAreaTotals_spec :
    (∀ (st : Store) (d a : String),
      (Attendance.getAreaTotals st d a).1.total =
        (((Attendance.getAreaData st d a).1.rows).map
          (fun r => match r.present with | JVal.num n => n | _ => 0)).sum ∧
      (Attendance.getAreaTotals st d a).1.confirmed =
        ((Attendance.getAreaData st d a).1.rows).countP (fun r => r.confirmed) ∧
      (Attendance.getAreaTotals st d a).1.rows =
        ((Attendance.getAreaData st d a).1.rows).length) ∧
    (Attendance.getAreaTotals c6Store "2024-01-01" "Spool Yard").1 =
      { total := 8, confirmed := 2, rows := 3 } := by
  constructor
  · intro st d a
    refine ⟨?_, ?_, rfl⟩
    · show ((Attendance.getAreaData st d a).1.rows).foldl _ 0 = _
      rw [List.sum_eq_foldl, List.foldl_map]
    · show (((Attendance.getAreaData st d a).1.rows).filter _).length = _
      rw [← List.countP_eq_length_filter]
  · decide

-- ============================================
-- Session helper lemmas
-- ============================================

theorem getCurrentUser_none_of_no_user (st : Store) (now : Nat)
    (h : st.session.currentUser = none) : Auth.getCurrentUser st now = (none, st) := by
  unfold Auth.getCurrentUser
  rw [h]

theorem getCurrentUser_some (st : Store) (now : Nat) (u : User)
    (h : (Auth.getCurrentUser st now).1 = some u) :
    Auth.getCurrentUser st now = (some u, st) := by
  cases hcu : st.session.currentUser with
  | none => simp [Auth.getCurrentUser, hcu] at h
  | some uname =>
    by_cases he : uname = ""
    · simp [Auth.getCurrentUser, hcu, he] at h
    · by_cases hex : expiryDue st.session.expiresAt now = true
      · simp [Auth.getCurrentUser, hcu, he, hex] at h
      · cases hf : st.users.find? (fun x => x.username == uname) with
        | none => simp [Auth.getCurrentUser, hcu, he, hex, hf] at h
        | some usr =>
          by_cases hd : usr.disabled = true
          · simp [Auth.getCurrentUser, hcu, he, hex, hf, hd] at h
          · simp [Auth.getCurrentUser, hcu, he, hex, hf, hd] at h
            subst h
            simp [Auth.getCurrentUser, hcu, he, hex, hf, hd]

-- ============================================
-- C4 (corrected): session expiry in getCurrentUser
-- ============================================

def c4User : User :=
  { username := "alice", role := "admin", salt := "s", passwordHash := "h",
    assignedAreas := [], createdAt := 0, disabled := false }

def c4Session : Session :=
  { currentUser := some "alice", expiresAt := some 0,
    failedLogin := { count := 0, cooldownUntil := none } }

def c4Store : Store :=
  { session := c4Session, users := [c4User], attendance := [],
    designationHistory := { global := [], byArea := [] } }

/-- C4 counterexample: a session whose `expiresAt` is the timestamp `0`
(which is in the past at `now = 5`) is *not* expired by `getCurrentUser` —
the JS guard `sess.expiresAt && now > sess.expiresAt` treats `0` as falsy,
so the call returns the user instead of none and clears nothing. -/
theorem getCurrentUser_expired_claim_false :
    c4Store.session.expiresAt = some 0 ∧ 0 < 5 ∧
    (Auth.getCurrentUser c4Store 5).1 ≠ none ∧
    (Auth.getCurrentUser c4Store 5).2.session.expiresAt ≠ none := by decide

/-- C4 (amended): for a session whose `currentUser` is a nonempty username
and whose `expiresAt` is a *nonzero* timestamp strictly in the past,
`getCurrentUser` returns none and clears `currentUser`/`expiresAt` in the
stored session; a second immediate call also returns none (and changes
nothing further). -/
theorem getCurrentUser_expired_amended (st : Store) (now : Nat) (uname : String) (e : Nat)
    (h1 : st.session.currentUser = some uname) (h2 : uname ≠ "")
    (h3 : st.session.expiresAt = some e) (h4 : e ≠ 0) (h5 : e < now) :
    (Auth.getCurrentUser st now).1 = none ∧
    ((Auth.getCurrentUser st now).2).session.currentUser = none ∧
    ((Auth.getCurrentUser st now).2).session.expiresAt = none ∧
    (Auth.getCurrentUser (Auth.getCurrentUser st now).2 now).1 = none ∧
    (Auth.getCurrentUser (Auth.getCurrentUser st now).2 now).2 =
      (Auth.getCurrentUser st now).2 := by
  have hdue : expiryDue st.session.expiresAt now = true := by
    rw [h3]
    show (!(e == 0) && decide (now > e)) = true
    simp [h4]
    omega
  have hgc : Auth.getCurrentUser st now = (none, Auth.logout st) := by
    have he : (uname == "") = false := by simp [h2]
    simp [Auth.getCurrentUser, h1, he, hdue]
  rw [hgc]
  have hnone : (Auth.logout st).session.currentUser = none := rfl
  have h2nd := getCurrentUser_none_of_no_user (Auth.logout st) now hnone
  exact ⟨rfl, rfl, rfl, by rw [h2nd], by rw [h2nd]⟩

/-- C4 witness: the amended theorem at a concrete expired session. -/
def c4bSession : Session :=
  { currentUser := some "alice", expiresAt := some 10,
    failedLogin := { count := 0, cooldownUntil := none } }

def c4bStore : Store :=
  { session := c4bSession, users := [c4User], attendance := [],
    designationHistory := { global := [], byArea := [] } }

theorem getCurrentUser_expired_amended_witness :
    (Auth.getCurrentUser c4bStore 99).1 = none ∧
    ((Auth.getCurrentUser c4bStore 99).2).session.currentUser = none ∧
    ((Auth.getCurrentUser c4bStore 99).2).session.expiresAt = none ∧
    (Auth.getCurrentUser (Auth.getCurrentUser c4bStore 99).2 99).1 = none ∧
    (Auth.getCurrentUser (Auth.getCurrentUser c4bStore 99).2 99).2 =
      (Auth.getCurrentUser c4bStore 99).2 :=
  getCurrentUser_expired_amended c4bStore 99 "alice" 10 rfl (by decide) rfl
    (by decide) (by decide)

-- ============================================
-- C1 (code bug): updateRow erases the audit entries it just wrote
-- ============================================

def c1Session : Session :=
  { currentUser := some "alice", expiresAt := some 1000000,
    failedLogin := { count := 0, cooldownUntil := none } }

def c1Store : Store :=
  { session := c1Session,
    users := [c4User],
    attendance := [("2024-01-01", mkDate "Spool Yard"
      [mkRow "welder" "Welder" JVal.null false])],
    designationHistory := { global := [], byArea := [] } }

/-- Eleven successive `updateRow` calls, each changing `present`. -/
def c1Final : Store :=
  (List.range 11).foldl
    (fun st i => Attendance.updateRow st (100 + i) "2024-01-01" "Spool Yard" "welder"
      { present := some (JVal.num (Int.ofNat i + 1)), confirmed := none })
    c1Store

/-- C1 (code bug): after 11 sequential audited `present` changes on one
date under a live session, `Audit.getEntries` returns `[]`, not the 10
most recent entries — `updateRow` emits each entry via `Audit.addEntry`
(which re-reads and saves the date document), but its own final
`saveAttendanceForDate` writes back the document snapshot taken *before*
the audit writes, erasing them.  The row updates themselves survive. -/
theorem updateRow_audit_lost :
    (Audit.getEntries c1Final "2024-01-01").1 = [] ∧
    ((Attendance.getRow c1Final "2024-01-01" "Spool Yard" "welder").1.map
      Row.present) = some (JVal.num 11) := by decide

-- ============================================
-- C8: deleteRow requires no session
-- ============================================

/-- C8: with no authenticated session (`currentUser = null`), `deleteRow`
still removes the first matching row and persists the change, while
`addOrUpdateRow` and `updateRow` are strict no-ops on the store. -/
theorem deleteRow_no_session (st : Store) (now : Nat) (d a k lab : String)
    (upd : Updates) (i : Nat)
    (hs : st.session.currentUser = none)
    (hidx : (rowsFor st d a).findIdx? (fun r => r.designationKey == k) = some i) :
    rowsFor (Attendance.deleteRow st d a k) d a = (rowsFor st d a).eraseIdx i ∧
    Attendance.addOrUpdateRow st now d a lab = st ∧
    Attendance.updateRow st now d a k upd = st := by
  have hgc := getCurrentUser_none_of_no_user st now hs
  refine ⟨?_, ?_, ?_⟩
  · unfold Attendance.deleteRow
    cases hob : objGet (Storage.readDate st d).areas a with
    | none =>
      exfalso
      unfold rowsFor at hidx
      rw [hob] at hidx
      simp at hidx
    | some areaD =>
      unfold rowsFor at hidx ⊢
      rw [hob] at hidx
      simp only [Option.getD_some] at hidx
      simp only [hob, hidx]
      rw [readDate_save_self]
      simp [objGet_objSet_self, hob]
  · unfold Attendance.addOrUpdateRow
    rw [hgc]
  · unfold Attendance.updateRow
    rw [hgc]

def c8Store : Store :=
  { session := sess0,
    users := [],
    attendance := [("2024-01-01", mkDate "Spool Yard"
      [mkRow "welder" "Welder" (JVal.num 3) false,
       mkRow "fitter" "Fitter" (JVal.num 2) false])],
    designationHistory := { global := [], byArea := [] } }

theorem deleteRow_no_session_witness :
    rowsFor (Attendance.deleteRow c8Store "2024-01-01" "Spool Yard" "fitter")
        "2024-01-01" "Spool Yard" =
      (rowsFor c8Store "2024-01-01" "Spool Yard").eraseIdx 1 ∧
    Attendance.addOrUpdateRow c8Store 7 "2024-01-01" "Spool Yard" "Rigger" = c8Store ∧
    Attendance.updateRow c8Store 7 "2024-01-01" "Spool Yard" "fitter"
      { present := some (JVal.num 9), confirmed := none } = c8Store :=
  deleteRow_no_session c8Store 7 "2024-01-01" "Spool Yard" "fitter" "Rigger"
    { present := some (JVal.num 9), confirmed := none } 1 rfl (by decide)

-- ============================================
-- Login effect lemmas
-- ============================================

/-- The attempt `(u, p)` fails the credential check against this user
list: unknown username, or known and enabled but with a wrong password. -/
def credFail (hash : String → String → String) (users : List User) (u p : String) : Prop :=
  match users.find? (fun x => x.username == u) with
  | none => True
  | some usr => usr.disabled = false ∧ hash p usr.salt ≠ usr.passwordHash

theorem lockActive_none (sess : Session) (now : Nat)
    (h : sess.failedLogin.cooldownUntil = none) : lockActive sess now = false := by
  unfold lockActive
  rw [h]

theorem lockActive_elapsed (sess : Session) (now : Nat) (cu : Nat)
    (h : sess.failedLogin.cooldownUntil = some cu) (hle : cu ≤ now) :
    lockActive sess now = false := by
  unfold lockActive
  rw [h]
  simp
  omega

theorem login_failed_effect (hash : String → String → String) (st : Store) (now : Nat)
    (u p : String) (hlock : lockActive st.session now = false)
    (hc : credFail hash st.users u p) :
    Auth.login hash st now u p =
      (Except.error AuthError.invalidCredentials, Auth.handleFailedLogin st now) := by
  unfold Auth.login
  rw [if_neg (by rw [hlock]; exact Bool.false_ne_true)]
  unfold credFail at hc
  cases hfind : st.users.find? (fun x => x.username == u) with
  | none => simp [hfind]
  | some usr =>
    rw [hfind] at hc
    simp only [hfind]
    rw [if_neg (by rw [hc.1]; exact Bool.false_ne_true)]
    rw [if_pos (by simp [hc.2])]

theorem login_locked (hash : String → String → String) (st : Store) (now : Nat)
    (u p : String) (hlock : lockActive st.session now = true) :
    (∃ r, (Auth.login hash st now u p).1 = Except.error (AuthError.accountLocked r)) ∧
    (Auth.login hash st now u p).2 = st := by
  unfold Auth.login
  rw [if_pos hlock]
  exact ⟨⟨_, rfl⟩, rfl⟩

theorem login_success (hash : String → String → String) (st : Store) (now : Nat)
    (u p : String) (usr : User)
    (hlock : lockActive st.session now = false)
    (hfind : st.users.find? (fun x => x.username == u) = some usr)
    (hdis : usr.disabled = false)
    (hhash : hash p usr.salt = usr.passwordHash) :
    (Auth.login hash st now u p).1 = Except.ok () ∧
    (Auth.login hash st now u p).2.session =
      { currentUser := some u, expiresAt := some (now + SESSION_DURATION),
        failedLogin := { count := 0, cooldownUntil := none } } := by
  unfold Auth.login
  rw [if_neg (by rw [hlock]; exact Bool.false_ne_true)]
  simp only [hfind]
  rw [if_neg (by rw [hdis]; exact Bool.false_ne_true)]
  rw [if_neg (by simp [hhash])]
  exact ⟨rfl, rfl⟩

theorem handleFailedLogin_spec (st : Store) (now : Nat) :
    (Auth.handleFailedLogin st now).session.failedLogin.count =
      st.session.failedLogin.count + 1 ∧
    (Auth.handleFailedLogin st now).session.failedLogin.cooldownUntil =
      (if st.session.failedLogin.count + 1 ≥ MAX_LOGIN_ATTEMPTS
        then some (now + LOCKOUT_DURATION)
        else st.session.failedLogin.cooldownUntil) ∧
    (Auth.handleFailedLogin st now).users = st.users :=
  ⟨rfl, rfl, rfl⟩

/-- One failed attempt taken from a session with `count = c` and no active
cooldown, where the bumped counter stays below the lockout threshold. -/
theorem failed_step_nolock (hash : String → String → String) (st : Store) (now : Nat)
    (u p : String) (c : Nat)
    (hsess : st.session.failedLogin = { count := c, cooldownUntil := none })
    (hc : credFail hash st.users u p) (hlt : c + 1 < MAX_LOGIN_ATTEMPTS) :
    (Auth.login hash st now u p).1 = Except.error AuthError.invalidCredentials ∧
    (Auth.login hash st now u p).2.session.failedLogin =
      { count := c + 1, cooldownUntil := none } ∧
    (Auth.login hash st now u p).2.users = st.users := by
  have heff := login_failed_effect hash st now u p
    (lockActive_none st.session now (by rw [hsess])) hc
  rw [heff]
  refine ⟨rfl, ?_, rfl⟩
  unfold Auth.handleFailedLogin
  simp only [hsess]
  rw [if_neg (Nat.not_le.mpr hlt)]

/-- The failed attempt that reaches the threshold and arms the cooldown. -/
theorem failed_step_lock (hash : String → String → String) (st : Store) (now : Nat)
    (u p : String) (c : Nat)
    (hsess : st.session.failedLogin = { count := c, cooldownUntil := none })
    (hc : credFail hash st.users u p) (hge : MAX_LOGIN_ATTEMPTS ≤ c + 1) :
    (Auth.login hash st now u p).1 = Except.error AuthError.invalidCredentials ∧
    (Auth.login hash st now u p).2.session.failedLogin =
      { count := c + 1, cooldownUntil := some (now + LOCKOUT_DURATION) } ∧
    (Auth.login hash st now u p).2.users = st.users := by
  have heff := login_failed_effect hash st now u p
    (lockActive_none st.session now (by rw [hsess])) hc
  rw [heff]
  refine ⟨rfl, ?_, rfl⟩
  unfold Auth.handleFailedLogin
  simp only [hsess]
  rw [if_pos hge]

theorem lockActive_some_lt (sess : Session) (now cu : Nat)
    (h : sess.failedLogin.cooldownUntil = some cu) (h0 : cu ≠ 0) (hlt : now < cu) :
    lockActive sess now = true := by
  unfold lockActive
  rw [h]
  simp [h0, hlt]

/-- Run a sequence of login attempts, keeping only the store. -/
def failSeq (hash : String → String → String) (st : Store) :
    List (Nat × String × String) → Store
  | [] => st
  | (t, u, p) :: rest => failSeq hash (Auth.login hash st t u p).2 rest

-- ============================================
-- C2: lockout after five failures, recovery after the cooldown
-- ============================================

/-- C2: from a session with no failed attempts, five failed logins (wrong
password or unknown username, any mix of usernames) arm the lockout; a 6th
attempt before `cooldownUntil` — whatever its credentials — fails with
`AccountLocked`; once the cooldown has elapsed, a login with correct
credentials succeeds and resets `failedLogin` to `{count := 0,
cooldownUntil := null}`. -/
theorem lockout_then_recovery (hash : String → String → String) (st0 : Store)
    (t1 t2 t3 t4 t5 t6 t7 : Nat)
    (u1 p1 u2 p2 u3 p3 u4 p4 u5 p5 u6 p6 u7 p7 : String) (usr : User)
    (h0 : st0.session.failedLogin = { count := 0, cooldownUntil := none })
    (hc1 : credFail hash st0.users u1 p1)
    (hc2 : credFail hash st0.users u2 p2)
    (hc3 : credFail hash st0.users u3 p3)
    (hc4 : credFail hash st0.users u4 p4)
    (hc5 : credFail hash st0.users u5 p5)
    (h6 : t6 < t5 + LOCKOUT_DURATION)
    (h7 : t5 + LOCKOUT_DURATION ≤ t7)
    (hfind : st0.users.find? (fun x => x.username == u7) = some usr)
    (hdis : usr.disabled = false)
    (hhash : hash p7 usr.salt = usr.passwordHash) :
    (∃ r, (Auth.login hash
        (failSeq hash st0 [(t1, u1, p1), (t2, u2, p2), (t3, u3, p3), (t4, u4, p4),
          (t5, u5, p5)]) t6 u6 p6).1 =
      Except.error (AuthError.accountLocked r)) ∧
    (Auth.login hash
        ((Auth.login hash
          (failSeq hash st0 [(t1, u1, p1), (t2, u2, p2), (t3, u3, p3), (t4, u4, p4),
            (t5, u5, p5)]) t6 u6 p6).2) t7 u7 p7).1 = Except.ok () ∧
    (Auth.login hash
        ((Auth.login hash
          (failSeq hash st0 [(t1, u1, p1), (t2, u2, p2), (t3, u3, p3), (t4, u4, p4),
            (t5, u5, p5)]) t6 u6 p6).2) t7 u7 p7).2.session.failedLogin.count = 0 ∧
    (Auth.login hash
        ((Auth.login hash
          (failSeq hash st0 [(t1, u1, p1), (t2, u2, p2), (t3, u3, p3), (t4, u4, p4),
            (t5, u5, p5)]) t6 u6 p6).2) t7 u7 p7).2.session.failedLogin.cooldownUntil
      = none := by
  simp only [failSeq]
  have e1 := failed_step_nolock hash st0 t1 u1 p1 0 h0 hc1 (by decide)
  set s1 := (Auth.login hash st0 t1 u1 p1).2 with hs1
  have e2 := failed_step_nolock hash s1 t2 u2 p2 1 e1.2.1 (e1.2.2.symm ▸ hc2) (by decide)
  set s2 := (Auth.login hash s1 t2 u2 p2).2 with hs2
  have hu2 : s2.users = st0.users := e2.2.2.trans e1.2.2
  have e3 := failed_step_nolock hash s2 t3 u3 p3 2 e2.2.1 (hu2.symm ▸ hc3) (by decide)
  set s3 := (Auth.login hash s2 t3 u3 p3).2 with hs3
  have hu3 : s3.users = st0.users := e3.2.2.trans hu2
  have e4 := failed_step_nolock hash s3 t4 u4 p4 3 e3.2.1 (hu3.symm ▸ hc4) (by decide)
  set s4 := (Auth.login hash s3 t4 u4 p4).2 with hs4
  have hu4 : s4.users = st0.users := e4.2.2.trans hu3
  have e5 := failed_step_lock hash s4 t5 u5 p5 4 e4.2.1 (hu4.symm ▸ hc5) (by decide)
  set s5 := (Auth.login hash s4 t5 u5 p5).2 with hs5
  have hu5 : s5.users = st0.users := e5.2.2.trans hu4
  have hlock6 : lockActive s5.session t6 = true := by
    refine lockActive_some_lt s5.session t6 (t5 + LOCKOUT_DURATION) (by rw [e5.2.1]) ?_ h6
    unfold LOCKOUT_DURATION
    omega
  have locked := login_locked hash s5 t6 u6 p6 hlock6
  set s6 := (Auth.login hash s5 t6 u6 p6).2 with hs6
  have hs6eq : s6 = s5 := locked.2
  have hlock7 : lockActive s6.session t7 = false := by
    rw [hs6eq]
    exact lockActive_elapsed s5.session t7 (t5 + LOCKOUT_DURATION) (by rw [e5.2.1]) h7
  have hfind7 : s6.users.find? (fun x => x.username == u7) = some usr := by
    rw [hs6eq, hu5]
    exact hfind
  have success := login_success hash s6 t7 u7 p7 usr hlock7 hfind7 hdis hhash
  refine ⟨locked.1, success.1, ?_, ?_⟩
  · rw [success.2]
  · rw [success.2]

-- C2 witness data: one real user, five garbage attempts, recovery.

def c2User : User :=
  { username := "alice", role := "admin", salt := "x", passwordHash := "pwx",
    assignedAreas := [], createdAt := 0, disabled := false }

def c2Store : Store :=
  { session := sess0, users := [c2User], attendance := [],
    designationHistory := { global := [], byArea := [] } }

/-- A stand-in for the SHA-256 digest in concrete runs. -/
def toyHash (password salt : String) : String := password ++ salt

theorem lockout_then_recovery_witness :
    (∃ r, (Auth.login toyHash
        (failSeq toyHash c2Store [(0, "bob", "z"), (1, "bob", "z"), (2, "alice", "no"),
          (3, "bob", "z"), (1000, "bob", "z")]) 290999 "alice" "pw").1 =
      Except.error (AuthError.accountLocked r)) ∧
    (Auth.login toyHash
        ((Auth.login toyHash
          (failSeq toyHash c2Store [(0, "bob", "z"), (1, "bob", "z"), (2, "alice", "no"),
            (3, "bob", "z"), (1000, "bob", "z")]) 290999 "alice" "pw").2) 301000
        "alice" "pw").1 = Except.ok () ∧
    (Auth.login toyHash
        ((Auth.login toyHash
          (failSeq toyHash c2Store [(0, "bob", "z"), (1, "bob", "z"), (2, "alice", "no"),
            (3, "bob", "z"), (1000, "bob", "z")]) 290999 "alice" "pw").2) 301000
        "alice" "pw").2.session.failedLogin.count = 0 ∧
    (Auth.login toyHash
        ((Auth.login toyHash
          (failSeq toyHash c2Store [(0, "bob", "z"), (1, "bob", "z"), (2, "alice", "no"),
            (3, "bob", "z"), (1000, "bob", "z")]) 290999 "alice" "pw").2) 301000
        "alice" "pw").2.session.failedLogin.cooldownUntil = none :=
  lockout_then_recovery toyHash c2Store 0 1 2 3 1000 290999 301000
    "bob" "z" "bob" "z" "alice" "no" "bob" "z" "bob" "z" "whoever" "whatever"
    "alice" "pw" c2User rfl
    (by exact trivial) (by exact trivial) (by exact ⟨rfl, by decide⟩)
    (by exact trivial) (by exact trivial)
    (by decide) (by decide) (by decide) (by decide) (by decide)

-- ============================================
-- C9: an elapsed cooldown never resets the counter; the next failure re-locks
-- ============================================

/-- C9: `failedLogin.count` is not reset by the cooldown elapsing: once
`count` has reached 5 and `cooldownUntil` has passed, one more failed
attempt is processed (it is not rejected as locked), increments the count
(staying at or above 5), and arms a fresh full-length cooldown. -/
theorem failed_login_relocks (hash : String → String → String) (st : Store)
    (now : Nat) (u p : String) (c cu : Nat)
    (hsess : st.session.failedLogin = { count := c, cooldownUntil := some cu })
    (hge : MAX_LOGIN_ATTEMPTS ≤ c)
    (helapsed : cu ≤ now)
    (hc : credFail hash st.users u p) :
    (Auth.login hash st now u p).1 = Except.error AuthError.invalidCredentials ∧
    (Auth.login hash st now u p).2.session.failedLogin.count = c + 1 ∧
    MAX_LOGIN_ATTEMPTS ≤ c + 1 ∧
    (Auth.login hash st now u p).2.session.failedLogin.cooldownUntil =
      some (now + LOCKOUT_DURATION) := by
  have hlock : lockActive st.session now = false :=
    lockActive_elapsed st.session now cu (by rw [hsess]) helapsed
  have heff := login_failed_effect hash st now u p hlock hc
  rw [heff]
  refine ⟨rfl, ?_, Nat.le_succ_of_le hge, ?_⟩
  · unfold Auth.handleFailedLogin
    simp [hsess]
  · unfold Auth.handleFailedLogin
    simp only [hsess]
    rw [if_pos (Nat.le_succ_of_le hge)]

def c9Session : Session :=
  { currentUser := none, expiresAt := none,
    failedLogin := { count := 5, cooldownUntil := some 300000 } }

def c9Store : Store :=
  { session := c9Session, users := [c2User], attendance := [],
    designationHistory := { global := [], byArea := [] } }

theorem failed_login_relocks_witness :
    (Auth.login toyHash c9Store 300001 "alice" "wrong").1 =
      Except.error AuthError.invalidCredentials ∧
    (Auth.login toyHash c9Store 300001 "alice" "wrong").2.session.failedLogin.count = 6 ∧
    MAX_LOGIN_ATTEMPTS ≤ 6 ∧
    (Auth.login toyHash c9Store 300001 "alice" "wrong").2.session.failedLogin.cooldownUntil
      = some (300001 + LOCKOUT_DURATION) :=
  failed_login_relocks toyHash c9Store 300001 "alice" "wrong" 5 300000 rfl
    (by decide) (by decide) (by exact ⟨rfl, by decide⟩)

-- ============================================
-- addOrUpdateRow characterization
-- ============================================

theorem find?_append_none {α : Type} (l1 l2 : List α) (p : α → Bool)
    (h : l1.find? p = none) : (l1 ++ l2).find? p = l2.find? p := by
  induction l1 with
  | nil => rfl
  | cons x xs ih =>
    cases hx : p x with
    | true => rw [List.find?_cons_of_pos _ hx] at h; exact absurd h (by simp)
    | false =>
      rw [List.find?_cons_of_neg _ (by simp [hx])] at h
      rw [List.cons_append, List.find?_cons_of_neg _ (by simp [hx])]
      exact ih h

theorem addOrUpdateRow_existing (st : Store) (now : Nat) (d a lab : String)
    (u : User) (r : Row)
    (hu : Auth.getCurrentUser st now = (some u, st))
    (hf : (rowsFor st d a).find?
      (fun x => x.designationKey == normalizeDesignation lab) = some r) :
    rowsFor (Attendance.addOrUpdateRow st now d a lab) d a = rowsFor st d a := by
  unfold Attendance.addOrUpdateRow
  rw [hu]
  cases hob : objGet (Storage.readDate st d).areas a with
  | none =>
    exfalso
    unfold rowsFor at hf
    rw [hob] at hf
    simp at hf
  | some areaD0 =>
    unfold rowsFor at hf
    rw [hob] at hf
    simp only [Option.getD_some] at hf
    simp only [hob, Option.isNone_some, Bool.false_eq_true, if_false,
      Option.getD_some, hf]
    unfold rowsFor
    rw [readDate_save_self]

theorem addOrUpdateRow_new (st : Store) (now : Nat) (d a lab : String) (u : User)
    (hu : Auth.getCurrentUser st now = (some u, st))
    (hf : (rowsFor st d a).find?
      (fun x => x.designationKey == normalizeDesignation lab) = none) :
    rowsFor (Attendance.addOrUpdateRow st now d a lab) d a =
      rowsFor st d a ++ [mkRow (normalizeDesignation lab) lab JVal.null false] := by
  unfold Attendance.addOrUpdateRow
  rw [hu]
  cases hob : objGet (Storage.readDate st d).areas a with
  | none =>
    have hrows : rowsFor st d a = [] := by
      unfold rowsFor
      rw [hob]
      rfl
    simp only [hob, Option.isNone_none, if_true, objGet_objSet_self,
      Option.getD_some, List.find?_nil]
    unfold rowsFor
    rw [readDate_save_self]
    simp only [objGet_objSet_self, Option.getD_some, hob, Option.getD_none]
    rfl
  | some areaD0 =>
    unfold rowsFor at hf
    rw [hob] at hf
    simp only [Option.getD_some] at hf
    simp only [hob, Option.isNone_some, Bool.false_eq_true, if_false,
      Option.getD_some, hf]
    unfold rowsFor
    rw [readDate_save_self]
    simp only [objGet_objSet_self, Option.getD_some, hob]
    rfl

-- ============================================
-- C3: addOrUpdateRow is idempotent on the normalized key
-- ============================================

/-- C3: under a live session, two `addOrUpdateRow` calls whose labels
normalize identically leave exactly one row for that key in the area+date
(starting from a store with at most one such row, the invariant the ledger
maintains), and the second call leaves the rows — in particular the row's
`present`/`confirmed` — untouched. -/
theorem addOrUpdateRow_idempotent (st : Store) (t1 t2 : Nat) (d a l1 l2 : String)
    (hkey : normalizeDesignation l1 = normalizeDesignation l2)
    (hlive1 : ∃ u, (Auth.getCurrentUser st t1).1 = some u)
    (hlive2 : ∃ u, (Auth.getCurrentUser (Attendance.addOrUpdateRow st t1 d a l1) t2).1
      = some u)
    (huniq : ((rowsFor st d a).filter
      (fun r => r.designationKey == normalizeDesignation l1)).length ≤ 1) :
    ((rowsFor (Attendance.addOrUpdateRow (Attendance.addOrUpdateRow st t1 d a l1)
        t2 d a l2) d a).filter
      (fun r => r.designationKey == normalizeDesignation l1)).length = 1 ∧
    rowsFor (Attendance.addOrUpdateRow (Attendance.addOrUpdateRow st t1 d a l1)
        t2 d a l2) d a =
      rowsFor (Attendance.addOrUpdateRow st t1 d a l1) d a := by
  obtain ⟨u1, hu1⟩ := hlive1
  obtain ⟨u2, hu2⟩ := hlive2
  have hu1' := getCurrentUser_some st t1 u1 hu1
  have hu2' := getCurrentUser_some (Attendance.addOrUpdateRow st t1 d a l1) t2 u2 hu2
  cases hf : (rowsFor st d a).find?
      (fun x => x.designationKey == normalizeDesignation l1) with
  | some r =>
    have h1 := addOrUpdateRow_existing st t1 d a l1 u1 r hu1' hf
    have hf2 : (rowsFor (Attendance.addOrUpdateRow st t1 d a l1) d a).find?
        (fun x => x.designationKey == normalizeDesignation l2) = some r := by
      rw [h1, ← hkey]
      exact hf
    have h2 := addOrUpdateRow_existing (Attendance.addOrUpdateRow st t1 d a l1)
      t2 d a l2 u2 r hu2' hf2
    refine ⟨?_, h2⟩
    rw [h2, h1]
    -- exactly one: the found row is in the filter, and there is at most one
    have hmem : r ∈ (rowsFor st d a).filter
        (fun x => x.designationKey == normalizeDesignation l1) := by
      rw [List.mem_filter]
      refine ⟨List.mem_of_find?_eq_some hf, ?_⟩
      have hp := List.find?_some hf
      simpa using hp
    have : 1 ≤ ((rowsFor st d a).filter
        (fun x => x.designationKey == normalizeDesignation l1)).length :=
      List.length_pos.mpr (List.ne_nil_of_mem hmem)
    omega
  | none =>
    have h1 := addOrUpdateRow_new st t1 d a l1 u1 hu1' hf
    have hfilter : (rowsFor st d a).filter
        (fun x => x.designationKey == normalizeDesignation l1) = [] := by
      rw [List.filter_eq_nil_iff]
      intro x hx
      have := List.find?_eq_none.mp hf x hx
      simpa using this
    have hf2 : (rowsFor (Attendance.addOrUpdateRow st t1 d a l1) d a).find?
        (fun x => x.designationKey == normalizeDesignation l2) =
        some (mkRow (normalizeDesignation l1) l1 JVal.null false) := by
      rw [h1, ← hkey]
      rw [find?_append_none _ _ _ hf]
      simp [mkRow]
    have h2 := addOrUpdateRow_existing (Attendance.addOrUpdateRow st t1 d a l1)
      t2 d a l2 u2 _ hu2' hf2
    refine ⟨?_, h2⟩
    rw [h2, h1, List.filter_append, hfilter]
    simp [mkRow]

def c3User : User :=
  { username := "alice", role := "admin", salt := "s", passwordHash := "h",
    assignedAreas := [], createdAt := 0, disabled := false }

def c3Store : Store :=
  { session := c1Session,
    users := [c3User],
    attendance := [],
    designationHistory := { global := [], byArea := [] } }

theorem addOrUpdateRow_idempotent_witness :
    ((rowsFor (Attendance.addOrUpdateRow (Attendance.addOrUpdateRow c3Store 100
        "2024-01-01" "Spool Yard" "Spool  Yard") 101 "2024-01-01" "Spool Yard"
        "spool yard") "2024-01-01" "Spool Yard").filter
      (fun r => r.designationKey == normalizeDesignation "Spool  Yard")).length = 1 ∧
    rowsFor (Attendance.addOrUpdateRow (Attendance.addOrUpdateRow c3Store 100
        "2024-01-01" "Spool Yard" "Spool  Yard") 101 "2024-01-01" "Spool Yard"
        "spool yard") "2024-01-01" "Spool Yard" =
      rowsFor (Attendance.addOrUpdateRow c3Store 100 "2024-01-01" "Spool Yard"
        "Spool  Yard") "2024-01-01" "Spool Yard" :=
  addOrUpdateRow_idempotent c3Store 100 101 "2024-01-01" "Spool Yard"
    "Spool  Yard" "spool yard" (by decide)
    ⟨c3User, by decide⟩ ⟨c3User, by decide⟩ (by decide)

-- ============================================
-- C7 (corrected): suggestions are capped at 5 only in the merge branch
-- ============================================

def c7Hist : DesignHist :=
  { global := [], byArea := [("Spool Yard", ["w1", "w2", "w3", "w4", "w5", "w6"])] }

def c7Store : Store :=
  { session := sess0, users := [], attendance := [], designationHistory := c7Hist }

/-- C7 counterexample: with six area-scoped entries matching the partial,
`getSuggestions` returns all six labels — the `.slice(0, 5)` cap is applied
only in the branch that merges global matches, so the result exceeds the
claimed maximum of 5. -/
theorem getSuggestions_exceeds_five :
    (DesignationMgr.getSuggestions c7Store "w" "Spool Yard").length = 6 ∧
    5 < (DesignationMgr.getSuggestions c7Store "w" "Spool Yard").length := by decide

/-- Claim-side view: the area-scoped entries whose normalized form contains
the normalized partial, preserving stored (recency) order. -/
def areaScopedMatches (st : Store) (partialStr areaName : String) : List String :=
  if areaName = "" then []
  else ((objGet st.designationHistory.byArea areaName).getD []).filter
    (fun d => strIncludes (normalizeDesignation d) (normalizeDesignation partialStr))

/-- Claim-side view: global matches excluding the labels already included. -/
def globalExtraMatches (st : Store) (partialStr : String) (already : List String) :
    List String :=
  st.designationHistory.global.filter
    (fun d => strIncludes (normalizeDesignation d) (normalizeDesignation partialStr)
      && !(already.contains d))

theorem getSuggestions_area_part (st : Store) (partialStr areaName : String) :
    (if !(areaName == "") && (objGet st.designationHistory.byArea areaName).isSome then
      ((objGet st.designationHistory.byArea areaName).getD []).filter
        (fun d => strIncludes (normalizeDesignation d) (normalizeDesignation partialStr))
    else []) = areaScopedMatches st partialStr areaName := by
  unfold areaScopedMatches
  by_cases ha : areaName = ""
  · simp [ha]
  · cases hob : objGet st.designationHistory.byArea areaName with
    | none => simp [hob, ha]
    | some entries => simp [hob, ha]

/-- C7 (amended): `suggest` first collects the area-scoped entries whose
normalized form contains the normalized partial, in recency order; when
they number fewer than 5 it appends the non-duplicate global matches and
truncates the result to 5; but when 5 or more area-scoped matches exist,
they are all returned with no cap, so only the merge branch guarantees "at
most 5". -/
theorem getSuggestions_amended (st : Store) (partialStr areaName : String) :
    (5 ≤ (areaScopedMatches st partialStr areaName).length →
      DesignationMgr.getSuggestions st partialStr areaName =
        areaScopedMatches st partialStr areaName) ∧
    ((areaScopedMatches st partialStr areaName).length < 5 →
      DesignationMgr.getSuggestions st partialStr areaName =
        (areaScopedMatches st partialStr areaName ++
          globalExtraMatches st partialStr (areaScopedMatches st partialStr areaName)).take 5
      ∧ (DesignationMgr.getSuggestions st partialStr areaName).length ≤ 5) := by
  have hs := getSuggestions_area_part st partialStr areaName
  unfold DesignationMgr.getSuggestions
  simp only [hs]
  constructor
  · intro h5
    rw [if_neg (by omega)]
  · intro h5
    rw [if_pos h5]
    refine ⟨rfl, ?_⟩
    exact List.length_take_le 5 _

def c7bHist : DesignHist :=
  { global := ["w3", "x9", "w1"], byArea := [("A", ["w1", "w2"])] }

def c7bStore : Store :=
  { session := sess0, users := [], attendance := [], designationHistory := c7bHist }

theorem getSuggestions_amended_witness :
    (areaScopedMatches c7bStore "w" "A").length < 5 ∧
    (DesignationMgr.getSuggestions c7bStore "w" "A" =
      (areaScopedMatches c7bStore "w" "A" ++
        globalExtraMatches c7bStore "w" (areaScopedMatches c7bStore "w" "A")).take 5 ∧
      (DesignationMgr.getSuggestions c7bStore "w" "A").length ≤ 5) :=
  ⟨by decide, (getSuggestions_amended c7bStore "w" "A").2 (by decide)⟩
